import Mathlib

/-!
Shallow embedding of the portfolio data-access layer
(`PortfolioService` in the repository's service module).

The cache (a JS `Map<string, {data, timestamp}>`) is modelled as an
association list with JS `Map` semantics: `get` returns the first entry
with the given key, `set` replaces an existing entry in place (keeping
its position, which is how a JS `Map` preserves insertion order) or
appends a new one at the end.  Timestamps (`Date.now()`) are modelled as
integers in milliseconds; JS numbers appearing in data rows (weights,
returns) are modelled as exact rationals.  The asynchronous producer
(`fetchFn`) is modelled by its outcome, a value of `Except E A`; a thrown
JS error is the `Except.error` case.  The outcome record additionally
exposes whether the producer was invoked, which in the source is exactly
the event of entering the `try` block.
-/

deriving instance DecidableEq for Except

namespace PortfolioService

/-- One stored value of the JS `Map`: `{ data: any; timestamp: number }`. -/
structure CacheEntry (A : Type) where
  data : A
  timestamp : Int
deriving DecidableEq, Repr

/-- Association list with JS `Map` semantics over string keys. -/
abbrev JsMap (α : Type) : Type := List (String × α)

/-- `Map.prototype.get`: first entry whose key matches, if any. -/
def JsMap.get {α : Type} : JsMap α → String → Option α
  | [], _ => none
  | kv :: rest, k => if kv.1 = k then some kv.2 else JsMap.get rest k

/-- `Map.prototype.set`: replace the existing entry in place, else append. -/
def JsMap.set {α : Type} : JsMap α → String → α → JsMap α
  | [], k, v => [(k, v)]
  | kv :: rest, k, v => if kv.1 = k then (k, v) :: rest else kv :: JsMap.set rest k v

/-- `Map.prototype.delete`: remove the first (hence, on a genuine map, the
only) entry with the given key. -/
def JsMap.del {α : Type} (m : JsMap α) (k : String) : JsMap α :=
  m.eraseP (fun kv => kv.1 = k)

/-- The private cache field: `Map<string, { data: any; timestamp: number }>`. -/
abbrev Cache (A : Type) : Type := JsMap (CacheEntry A)

/-- `CACHE_DURATION = 5 * 60 * 1000` milliseconds. -/
def CACHE_DURATION : Int := 5 * 60 * 1000

/-- Everything observable about one call to `getCachedOrFetch`: the value
returned (or error thrown), the cache state after the call, and whether
the producer `fetchFn` was invoked. -/
structure FetchOutcome (E A : Type) where
  result : Except E A
  cache : Cache A
  invoked : Bool
deriving DecidableEq, Repr

/-- The fresh-hit test of `getCachedOrFetch` (lines 45-50 of the source):
when `forceFresh` is false and the entry for `cacheKey` exists with
`now - timestamp < CACHE_DURATION`, that entry is returned. -/
def hitEntry {A : Type} (cache : Cache A) (now : Int) (cacheKey : String)
    (forceFresh : Bool) : Option (CacheEntry A) :=
  if forceFresh then none
  else
    match cache.get cacheKey with
    | some cached => if now - cached.timestamp < CACHE_DURATION then some cached else none
    | none => none

/-- `getCachedOrFetch(cacheKey, fetchFn, forceFresh = false, fallbackData?)`.
The producer is modelled by its outcome `fetchFn : Except E A`; `now` is
the value of `Date.now()` during the call. -/
def getCachedOrFetch {E A : Type} (cache : Cache A) (now : Int) (cacheKey : String)
    (fetchFn : Except E A) (forceFresh : Bool) (fallbackData : Option A) :
    FetchOutcome E A :=
  match hitEntry cache now cacheKey forceFresh with
  | some cached => ⟨Except.ok cached.data, cache, false⟩
  | none =>
    match fetchFn with
    | Except.ok data => ⟨Except.ok data, cache.set cacheKey ⟨data, now⟩, true⟩
    | Except.error err =>
      match cache.get cacheKey with
      | some cached => ⟨Except.ok cached.data, cache, true⟩
      | none =>
        match fallbackData with
        | some fb => ⟨Except.ok fb, cache, true⟩
        | none => ⟨Except.error err, cache, true⟩

theorem JsMap.get_set_self {α : Type} (m : JsMap α) (k : String) (v : α) :
    (m.set k v).get k = some v := by
  induction m with
  | nil => simp [JsMap.set, JsMap.get]
  | cons kv rest ih =>
    by_cases h : kv.1 = k
    · simp [JsMap.set, JsMap.get, h]
    · simp [JsMap.set, JsMap.get, h, ih]

/-- The key fragment `userId || 'public'`: a JS `||`, so an empty string
also falls back to `"public"`. -/
def jsOrPublic : Option String → String
  | some u => if u = "" then "public" else u
  | none => "public"

/-- Row shape of the `portfolio_constituents` table (`PortfolioConstituent`). -/
structure PortfolioConstituent where
  id : Int
  user_id : Option String
  quarter : String
  stock_name : String
  stock_code : String
  company_logo_url : Option String
  weight : ℚ
  quarterly_returns : ℚ
  created_at : String
  updated_at : String
deriving DecidableEq, Repr

/-- Per-quarter summary record (`QuarterSummary`). -/
structure QuarterSummary where
  quarter : String
  total_stocks : ℕ
  avg_returns : ℚ
  total_weight : ℚ
deriving DecidableEq, Repr

/-- `portfolio_${quarter}_${userId || 'public'}`. -/
def portfolioKey (quarter : String) (userId : Option String) : String :=
  "portfolio_" ++ quarter ++ "_" ++ jsOrPublic userId

/-- The producer passed to `getCachedOrFetch` by `getPortfolioByQuarter`,
as a function of the awaited supabase response `{ data, error }`:
if `error` is set, throw it; otherwise return `data || []` (a null `data`
becomes the empty list).  The surrounding `try/catch` only logs and
rethrows, so it does not change the outcome. -/
def portfolioProducer {E : Type} (queryRes : Except E (Option (List PortfolioConstituent))) :
    Except E (List PortfolioConstituent) :=
  match queryRes with
  | Except.error e => Except.error e
  | Except.ok data => Except.ok (data.getD [])

/-- `getPortfolioByQuarter(quarter, userId?)`, with the remote response it
observes passed in as `queryRes`. -/
def getPortfolioByQuarter {E : Type} (cache : Cache (List PortfolioConstituent)) (now : Int)
    (quarter : String) (userId : Option String)
    (queryRes : Except E (Option (List PortfolioConstituent))) :
    FetchOutcome E (List PortfolioConstituent) :=
  getCachedOrFetch cache now (portfolioKey quarter userId) (portfolioProducer queryRes) false none

/-- Row shape selected by `getQuartersSummary`:
`select('quarter, weight, quarterly_returns')`. -/
structure SummaryRow where
  quarter : String
  weight : ℚ
  quarterly_returns : ℚ
deriving DecidableEq, Repr

/-- Value type of the `quarterMap` accumulator in `getQuartersSummary`. -/
structure QuarterAgg where
  total_stocks : ℕ
  total_returns : ℚ
  total_weight : ℚ
deriving DecidableEq, Repr

/-- One step of the `data.forEach(item => ...)` loop building `quarterMap`. -/
def quarterFold (m : JsMap QuarterAgg) (item : SummaryRow) : JsMap QuarterAgg :=
  let existing := (m.get item.quarter).getD ⟨0, 0, 0⟩
  m.set item.quarter
    ⟨existing.total_stocks + 1,
     existing.total_returns + item.quarterly_returns,
     existing.total_weight + item.weight⟩

/-- The finished `quarterMap` after the `forEach` loop. -/
def quarterMapOf (data : List SummaryRow) : JsMap QuarterAgg :=
  data.foldl quarterFold []

/-- `Array.from(quarterMap.entries()).map(...)`: one summary per map entry,
in the map's insertion order. -/
def computeQuarterSummaries (data : List SummaryRow) : List QuarterSummary :=
  (quarterMapOf data).map fun qs =>
    ⟨qs.1, qs.2.total_stocks, qs.2.total_returns / (qs.2.total_stocks : ℚ), qs.2.total_weight⟩

/-- The producer passed to `getCachedOrFetch` by `getQuartersSummary`:
throw a set `error`; return `[]` on null or empty `data`; otherwise group
and summarise. -/
def quartersProducer {E : Type} (queryRes : Except E (Option (List SummaryRow))) :
    Except E (List QuarterSummary) :=
  match queryRes with
  | Except.error e => Except.error e
  | Except.ok data =>
    let d := data.getD []
    if d.isEmpty then Except.ok [] else Except.ok (computeQuarterSummaries d)

/-- `quarters_${userId || 'public'}`. -/
def quartersKey (userId : Option String) : String :=
  "quarters_" ++ jsOrPublic userId

/-- `getQuartersSummary(userId?)`, with the remote response passed in. -/
def getQuartersSummary {E : Type} (cache : Cache (List QuarterSummary)) (now : Int)
    (userId : Option String) (queryRes : Except E (Option (List SummaryRow))) :
    FetchOutcome E (List QuarterSummary) :=
  getCachedOrFetch cache now (quartersKey userId) (quartersProducer queryRes) false none

/-- JS `key.includes(pattern)`: substring containment. -/
def strIncludes (s pat : String) : Bool :=
  decide (pat.data <:+: s.data)

/-- `clearCache(pattern?)`: with a pattern, collect the keys containing it
and delete each; with no pattern, `cache.clear()`.  The body's `try/catch`
swallows errors, and the embedded operations are total, so the function
always returns a cache to the caller. -/
def clearCache {A : Type} (cache : Cache A) (pattern : Option String) : Cache A :=
  match pattern with
  | some p =>
    let keysToDelete := (cache.map Prod.fst).filter (fun k => strIncludes k p)
    keysToDelete.foldl JsMap.del cache
  | none => []

theorem hitEntry_some {A : Type} {cache : Cache A} {now : Int} {k : String}
    {ff : Bool} {e : CacheEntry A} (h : hitEntry cache now k ff = some e) :
    cache.get k = some e ∧ now - e.timestamp < CACHE_DURATION ∧ ff = false := by
  unfold hitEntry at h
  cases ff with
  | true => simp at h
  | false =>
    simp only [Bool.false_eq_true, if_false] at h
    cases hg : cache.get k with
    | none => rw [hg] at h; exact absurd h (by simp)
    | some c =>
      rw [hg] at h
      by_cases hf : now - c.timestamp < CACHE_DURATION
      · simp only [hf, if_true, Option.some.injEq] at h
        subst h
        exact ⟨by simp [hg], hf, rfl⟩
      · simp [hf] at h

theorem hitEntry_of_fresh {A : Type} {cache : Cache A} {now : Int} {k : String}
    {e : CacheEntry A} (hg : cache.get k = some e)
    (hf : now - e.timestamp < CACHE_DURATION) :
    hitEntry cache now k false = some e := by
  unfold hitEntry
  simp [hg, hf]

theorem hitEntry_none_of_get_none {A : Type} {cache : Cache A} {now : Int}
    {k : String} {ff : Bool} (hg : cache.get k = none) :
    hitEntry cache now k ff = none := by
  unfold hitEntry
  cases ff <;> simp [hg]

/-- C1: after a call with a succeeding producer (`forceFresh = false`)
completes, a second call for the same key made while the stored entry is
still fresh (`t2 - timestamp < CACHE_DURATION`) does not invoke its
producer and returns exactly the first call's result. -/
theorem spec_C1 {E A : Type} (cache : Cache A) (t1 t2 : Int) (K : String) (d : A)
    (fb : Option A) (p2 : Except E A) (fb2 : Option A) (e : CacheEntry A)
    (h1 : (getCachedOrFetch cache t1 K (Except.ok d : Except E A) false fb).cache.get K = some e)
    (h2 : t2 - e.timestamp < CACHE_DURATION) :
    (getCachedOrFetch (getCachedOrFetch cache t1 K (Except.ok d : Except E A) false fb).cache
        t2 K p2 false fb2).invoked = false ∧
    (getCachedOrFetch (getCachedOrFetch cache t1 K (Except.ok d : Except E A) false fb).cache
        t2 K p2 false fb2).result =
      (getCachedOrFetch cache t1 K (Except.ok d : Except E A) false fb).result := by
  unfold getCachedOrFetch at h1 ⊢
  cases hh : hitEntry cache t1 K false with
  | some cached =>
    simp only [hh] at h1 ⊢
    have hit2 : hitEntry cache t2 K false = some e :=
      hitEntry_of_fresh h1 h2
    have he : cached = e := by
      have := (hitEntry_some hh).1
      rw [this] at h1
      exact Option.some.injEq _ _ ▸ h1
    subst he
    simp [hit2]
  | none =>
    simp only [hh] at h1 ⊢
    rw [JsMap.get_set_self] at h1
    have he : (⟨d, t1⟩ : CacheEntry A) = e := by
      exact Option.some.injEq _ _ ▸ h1
    have hit2 : hitEntry (cache.set K ⟨d, t1⟩) t2 K false = some e := by
      apply hitEntry_of_fresh
      · rw [JsMap.get_set_self, he]
      · exact h2
    simp [hit2, ← he]

/-- C1 witness: empty cache, first call stores 42 at time 0, second call at
time 100 with a failing producer still returns 42 without invoking it. -/
theorem spec_C1_witness :
    (getCachedOrFetch ([] : Cache Nat) 0 "k" (Except.ok 42 : Except String Nat) false
        none).cache.get "k" = some ⟨42, 0⟩ ∧
    ((100 : Int) - (⟨42, 0⟩ : CacheEntry Nat).timestamp < CACHE_DURATION) ∧
    ((getCachedOrFetch (getCachedOrFetch ([] : Cache Nat) 0 "k"
          (Except.ok 42 : Except String Nat) false none).cache
        100 "k" (Except.error "boom") false none).invoked = false ∧
     (getCachedOrFetch (getCachedOrFetch ([] : Cache Nat) 0 "k"
          (Except.ok 42 : Except String Nat) false none).cache
        100 "k" (Except.error "boom") false none).result =
       (getCachedOrFetch ([] : Cache Nat) 0 "k" (Except.ok 42 : Except String Nat) false
          none).result) :=
  ⟨by decide, by decide,
    spec_C1 [] 0 100 "k" 42 none (Except.error "boom") none ⟨42, 0⟩ (by decide) (by decide)⟩

/-- C2: when the producer fails and any entry exists for the key — fresh or
stale, whatever `forceFresh` is — the call returns that entry's data and
does not raise. -/
theorem spec_C2 {E A : Type} (cache : Cache A) (now : Int) (K : String) (err : E)
    (ff : Bool) (fb : Option A) (entry : CacheEntry A)
    (h : cache.get K = some entry) :
    (getCachedOrFetch cache now K (Except.error err : Except E A) ff fb).result =
      Except.ok entry.data := by
  unfold getCachedOrFetch
  cases hh : hitEntry cache now K ff with
  | some cached =>
    have := (hitEntry_some hh).1
    rw [this] at h
    simp only [Option.some.injEq] at h
    simp [h]
  | none => simp [h]

/-- C2 witness: a long-stale entry (timestamp 0, call at 10^9) is returned
when the producer fails. -/
theorem spec_C2_witness :
    (JsMap.get ([("k", ⟨5, 0⟩)] : Cache Nat) "k" = some ⟨5, 0⟩) ∧
    (getCachedOrFetch ([("k", ⟨5, 0⟩)] : Cache Nat) 1000000000 "k"
        (Except.error "down" : Except String Nat) false none).result = Except.ok 5 :=
  ⟨by decide, spec_C2 [("k", ⟨5, 0⟩)] 1000000000 "k" "down" false none ⟨5, 0⟩ (by decide)⟩

/-- C3: when the producer fails and no entry exists for the key, the call
returns the supplied fallback, and with no fallback it raises exactly the
producer's error. -/
theorem spec_C3 {E A : Type} (cache : Cache A) (now : Int) (K : String) (err : E)
    (ff : Bool) (f : A) (h : cache.get K = none) :
    (getCachedOrFetch cache now K (Except.error err : Except E A) ff (some f)).result =
      Except.ok f ∧
    (getCachedOrFetch cache now K (Except.error err : Except E A) ff (none : Option A)).result =
      Except.error err := by
  have hh : hitEntry cache now K ff = none := hitEntry_none_of_get_none h
  unfold getCachedOrFetch
  simp [hh, h]

/-- C3 witness: empty cache, failing producer: fallback 9 is returned when
supplied, the original error `"down"` raised otherwise. -/
theorem spec_C3_witness :
    (JsMap.get ([] : Cache Nat) "k" = none) ∧
    (getCachedOrFetch ([] : Cache Nat) 7 "k" (Except.error "down" : Except String Nat) false
        (some 9)).result = Except.ok 9 ∧
    (getCachedOrFetch ([] : Cache Nat) 7 "k" (Except.error "down" : Except String Nat) false
        (none : Option Nat)).result = Except.error "down" :=
  ⟨by decide, spec_C3 [] 7 "k" "down" false 9 (by decide)⟩

/-- C4: a failing producer never changes the cache; a succeeding producer
leaves the cache unchanged on the hit path (producer not invoked) and
otherwise stores exactly `(key, result, now)` over any prior entry. -/
theorem spec_C4 {E A : Type} (cache : Cache A) (now : Int) (K : String) (ff : Bool)
    (fb : Option A) :
    (∀ err : E, (getCachedOrFetch cache now K (Except.error err) ff fb).cache = cache) ∧
    (∀ d : A,
      ((getCachedOrFetch cache now K (Except.ok d : Except E A) ff fb).invoked = false →
        (getCachedOrFetch cache now K (Except.ok d : Except E A) ff fb).cache = cache) ∧
      ((getCachedOrFetch cache now K (Except.ok d : Except E A) ff fb).invoked = true →
        (getCachedOrFetch cache now K (Except.ok d : Except E A) ff fb).cache =
          cache.set K ⟨d, now⟩)) := by
  constructor
  · intro err
    unfold getCachedOrFetch
    cases hh : hitEntry cache now K ff with
    | some cached => rfl
    | none =>
      cases hg : cache.get K with
      | some cached => rfl
      | none => cases fb <;> rfl
  · intro d
    unfold getCachedOrFetch
    cases hh : hitEntry cache now K ff with
    | some cached => exact ⟨fun _ => rfl, by simp⟩
    | none => exact ⟨by simp, fun _ => rfl⟩

/-- C4 witness: at a concrete state, a failing producer leaves the cache
as it was and a succeeding one stores `("k", 7, 3)`. -/
theorem spec_C4_witness :
    (getCachedOrFetch ([("j", ⟨1, 0⟩)] : Cache Nat) 3 "k"
        (Except.error "down" : Except String Nat) false none).cache = [("j", ⟨1, 0⟩)] ∧
    (getCachedOrFetch ([("j", ⟨1, 0⟩)] : Cache Nat) 3 "k"
        (Except.ok 7 : Except String Nat) false none).cache =
      JsMap.set [("j", ⟨1, 0⟩)] "k" ⟨7, 3⟩ :=
  ⟨(spec_C4 [("j", ⟨1, 0⟩)] 3 "k" false none).1 "down",
   ((spec_C4 [("j", ⟨1, 0⟩)] 3 "k" false none).2 7).2 (by decide)⟩

/-- C6: an entry whose age has reached the freshness window
(`CACHE_DURATION ≤ now - timestamp`) no longer satisfies the hit path: a
call with `forceFresh = false` invokes the producer. -/
theorem spec_C6 {E A : Type} (cache : Cache A) (now : Int) (K : String)
    (p : Except E A) (fb : Option A) (entry : CacheEntry A)
    (h : cache.get K = some entry) (hstale : CACHE_DURATION ≤ now - entry.timestamp) :
    (getCachedOrFetch cache now K p false fb).invoked = true := by
  have hh : hitEntry cache now K false = none := by
    unfold hitEntry
    simp [h, not_lt.mpr hstale]
  unfold getCachedOrFetch
  rw [hh]
  cases p with
  | ok d => rfl
  | error err => cases hg : cache.get K with
    | some cached => rfl
    | none => cases fb <;> rfl

/-- C6 witness: an entry stored at time 0 queried at exactly
`CACHE_DURATION` triggers a producer invocation. -/
theorem spec_C6_witness :
    (JsMap.get ([("k", ⟨5, 0⟩)] : Cache Nat) "k" = some ⟨5, 0⟩) ∧
    (CACHE_DURATION ≤ (300000 : Int) - (⟨5, 0⟩ : CacheEntry Nat).timestamp) ∧
    (getCachedOrFetch ([("k", ⟨5, 0⟩)] : Cache Nat) 300000 "k"
        (Except.ok 6 : Except String Nat) false none).invoked = true :=
  ⟨by decide, by decide,
    spec_C6 [("k", ⟨5, 0⟩)] 300000 "k" (Except.ok 6) none ⟨5, 0⟩ (by decide) (by decide)⟩

/-- C10: `forceFresh = true` always invokes the producer (the hit path is
skipped even for a fresh entry), yet a failing producer still falls back
to any existing entry's data instead of raising. -/
theorem spec_C10 {E A : Type} (cache : Cache A) (now : Int) (K : String)
    (p : Except E A) (fb : Option A) :
    (getCachedOrFetch cache now K p true fb).invoked = true ∧
    (∀ (err : E) (entry : CacheEntry A), p = Except.error err →
      cache.get K = some entry →
      (getCachedOrFetch cache now K p true fb).result = Except.ok entry.data) := by
  have hh : hitEntry cache now K true = none := rfl
  constructor
  · unfold getCachedOrFetch
    rw [hh]
    cases p with
    | ok d => rfl
    | error err => cases hg : cache.get K with
      | some cached => rfl
      | none => cases fb <;> rfl
  · intro err entry hp hg
    subst hp
    unfold getCachedOrFetch
    rw [hh]
    simp [hg]

/-- C10 witness: a fresh entry (stored at 0, queried at 1) is bypassed by
`forceFresh`, and on producer failure its data 5 is still returned. -/
theorem spec_C10_witness :
    (getCachedOrFetch ([("k", ⟨5, 0⟩)] : Cache Nat) 1 "k"
        (Except.error "down" : Except String Nat) true none).invoked = true ∧
    (getCachedOrFetch ([("k", ⟨5, 0⟩)] : Cache Nat) 1 "k"
        (Except.error "down" : Except String Nat) true none).result = Except.ok 5 :=
  ⟨(spec_C10 [("k", ⟨5, 0⟩)] 1 "k" (Except.error "down") none).1,
   (spec_C10 [("k", ⟨5, 0⟩)] 1 "k" (Except.error "down") none).2 "down" ⟨5, 0⟩ rfl (by decide)⟩

/-- C7: when the call reaches the producer (no fresh entry for its key)
and the remote query succeeds with a null or empty row list,
`getPortfolioByQuarter` returns the empty list, not an error. -/
theorem spec_C7 {E : Type} (cache : Cache (List PortfolioConstituent)) (now : Int)
    (quarter : String) (userId : Option String)
    (h : hitEntry cache now (portfolioKey quarter userId) false = none) :
    (getPortfolioByQuarter cache now quarter userId
        (Except.ok none : Except E (Option (List PortfolioConstituent)))).result =
      Except.ok [] ∧
    (getPortfolioByQuarter cache now quarter userId
        (Except.ok (some []) : Except E (Option (List PortfolioConstituent)))).result =
      Except.ok [] := by
  unfold getPortfolioByQuarter getCachedOrFetch portfolioProducer
  rw [h]
  exact ⟨rfl, rfl⟩

/-- C7 witness: empty cache, quarter `"Q1"`, public user: both a null and
an empty `data` yield the empty list. -/
theorem spec_C7_witness :
    hitEntry ([] : Cache (List PortfolioConstituent)) 0 (portfolioKey "Q1" none) false = none ∧
    ((getPortfolioByQuarter ([] : Cache (List PortfolioConstituent)) 0 "Q1" none
        (Except.ok none : Except String (Option (List PortfolioConstituent)))).result =
      Except.ok [] ∧
     (getPortfolioByQuarter ([] : Cache (List PortfolioConstituent)) 0 "Q1" none
        (Except.ok (some []) : Except String (Option (List PortfolioConstituent)))).result =
      Except.ok []) :=
  ⟨rfl, spec_C7 [] 0 "Q1" none rfl⟩

theorem JsMap.foldl_del_cons {α : Type} (kv : String × α) (rest : JsMap α)
    (ks : List String) (hk : ∀ k ∈ ks, kv.1 ≠ k) :
    ks.foldl JsMap.del (kv :: rest) = kv :: ks.foldl JsMap.del rest := by
  induction ks generalizing rest with
  | nil => rfl
  | cons k ks ih =>
    have h1 : kv.1 ≠ k := hk k (by simp)
    have hstep : JsMap.del (kv :: rest) k = kv :: JsMap.del rest k := by
      simp [JsMap.del, List.eraseP_cons, h1]
    simp only [List.foldl_cons, hstep]
    exact ih (JsMap.del rest k) (fun k' hk' => hk k' (by simp [hk']))

theorem clearCache_some_unfold {A : Type} (cache : Cache A) (p : String) :
    clearCache cache (some p) =
      ((cache.map Prod.fst).filter (fun k => strIncludes k p)).foldl JsMap.del cache := rfl

theorem clearCache_some_eq_filter {A : Type} (cache : Cache A) (p : String) :
    clearCache cache (some p) = cache.filter (fun kv => !(strIncludes kv.1 p)) := by
  induction cache with
  | nil => rfl
  | cons kv rest ih =>
    rw [clearCache_some_unfold] at ih ⊢
    by_cases hp : strIncludes kv.1 p
    · have hdel : JsMap.del (kv :: rest) kv.1 = rest := by
        simp [JsMap.del, List.eraseP_cons]
      simp only [List.map_cons, List.filter_cons, hp, if_true, List.foldl_cons, hdel,
        Bool.not_true]
      exact ih
    · have hks : ((kv :: rest).map Prod.fst).filter (fun k => strIncludes k p) =
          (rest.map Prod.fst).filter (fun k => strIncludes k p) := by
        simp [List.filter_cons, hp]
      rw [hks, JsMap.foldl_del_cons]
      · simp only [List.filter_cons, hp, Bool.not_false, if_true]
        rw [ih]
      · intro k hkmem
        have : strIncludes k p = true := (List.mem_filter.mp hkmem).2
        intro he
        rw [he] at hp
        exact hp this

/-- C8: `clearCache` with a pattern keeps exactly the entries whose key
does not contain the pattern as a substring (so it deletes exactly those
that do, leaving the others in place), and with no pattern it empties the
cache; both cases are total functions of the cache, so no error reaches
the caller. -/
theorem spec_C8 {A : Type} (cache : Cache A) (p : String) :
    clearCache cache (some p) = cache.filter (fun kv => !(strIncludes kv.1 p)) ∧
    clearCache cache (none : Option String) = ([] : Cache A) :=
  ⟨clearCache_some_eq_filter cache p, rfl⟩

/-- Append a key to the accumulator unless already present: one step of
first-occurrence deduplication. -/
def insertIfNew (acc : List String) (q : String) : List String :=
  if q ∈ acc then acc else acc ++ [q]

/-- The distinct elements of a list in order of first occurrence — the key
order of a JS `Map` populated by `set` while traversing the list. -/
def dedupFirst (l : List String) : List String :=
  l.foldl insertIfNew []

/-- The aggregate `getQuartersSummary` accumulates for one quarter,
expressed directly over the row list: count, summed returns, summed
weights of the rows of that quarter. -/
def groupAgg (data : List SummaryRow) (q : String) : QuarterAgg :=
  let group := data.filter (fun r => r.quarter == q)
  ⟨group.length, (group.map SummaryRow.quarterly_returns).sum,
   (group.map SummaryRow.weight).sum⟩

/-- The specification's description of the summary list: one record per
distinct quarter in first-occurrence order, carrying the group's count,
its summed returns divided by the count, and its summed weight. -/
def summariesSpec (data : List SummaryRow) : List QuarterSummary :=
  (dedupFirst (data.map SummaryRow.quarter)).map fun q =>
    ⟨q, (groupAgg data q).total_stocks,
     (groupAgg data q).total_returns / ((groupAgg data q).total_stocks : ℚ),
     (groupAgg data q).total_weight⟩

theorem mem_foldl_insertIfNew (l : List String) (acc : List String) (x : String) :
    x ∈ l.foldl insertIfNew acc ↔ x ∈ acc ∨ x ∈ l := by
  induction l generalizing acc with
  | nil => simp
  | cons a l ih =>
    rw [List.foldl_cons, ih]
    unfold insertIfNew
    by_cases ha : a ∈ acc
    · simp only [ha, if_true, List.mem_cons]
      constructor
      · rintro (h | h)
        · exact Or.inl h
        · exact Or.inr (Or.inr h)
      · rintro (h | h | h)
        · exact Or.inl h
        · exact Or.inl (h ▸ ha)
        · exact Or.inr h
    · simp only [ha, if_false, List.mem_append, List.mem_singleton, List.mem_cons]
      tauto

theorem mem_dedupFirst (l : List String) (x : String) :
    x ∈ dedupFirst l ↔ x ∈ l := by
  unfold dedupFirst
  rw [mem_foldl_insertIfNew]
  simp

theorem nodup_foldl_insertIfNew (l : List String) (acc : List String)
    (h : acc.Nodup) : (l.foldl insertIfNew acc).Nodup := by
  induction l generalizing acc with
  | nil => exact h
  | cons a l ih =>
    rw [List.foldl_cons]
    apply ih
    unfold insertIfNew
    by_cases ha : a ∈ acc
    · simpa [ha] using h
    · simp only [ha, if_false]
      rw [List.nodup_append]
      exact ⟨h, List.nodup_singleton a, by simpa using ha⟩

theorem nodup_dedupFirst (l : List String) : (dedupFirst l).Nodup :=
  nodup_foldl_insertIfNew l [] List.nodup_nil

theorem dedupFirst_append_singleton (l : List String) (a : String) :
    dedupFirst (l ++ [a]) =
      if a ∈ l then dedupFirst l else dedupFirst l ++ [a] := by
  unfold dedupFirst
  rw [List.foldl_append, List.foldl_cons, List.foldl_nil]
  have h1 : insertIfNew (List.foldl insertIfNew [] l) a =
      if a ∈ List.foldl insertIfNew [] l then List.foldl insertIfNew [] l
      else List.foldl insertIfNew [] l ++ [a] := rfl
  rw [h1]
  simp [mem_foldl_insertIfNew]

theorem JsMap.get_graph {α : Type} (qs : List String) (g : String → α) (k : String) :
    JsMap.get (qs.map fun q => (q, g q)) k = if k ∈ qs then some (g k) else none := by
  induction qs with
  | nil => simp [JsMap.get]
  | cons q qs ih =>
    by_cases h : q = k
    · subst h
      simp [JsMap.get]
    · simp only [List.map_cons, JsMap.get, h, if_false, ih, List.mem_cons]
      have : ¬k = q := fun e => h e.symm
      simp [this]

theorem JsMap.set_cons {α : Type} (kv : String × α) (rest : JsMap α) (k : String)
    (v : α) :
    JsMap.set (kv :: rest) k v =
      if kv.1 = k then (k, v) :: rest else kv :: JsMap.set rest k v := rfl

theorem JsMap.set_graph_mem {α : Type} (qs : List String) (hnd : qs.Nodup)
    (g : String → α) (k : String) (v : α) (hk : k ∈ qs) :
    JsMap.set (qs.map fun q => (q, g q)) k v =
      qs.map fun q => (q, if q = k then v else g q) := by
  induction qs with
  | nil => cases hk
  | cons q qs ih =>
    rcases List.nodup_cons.mp hnd with ⟨hq, hnd2⟩
    rw [List.map_cons, List.map_cons, JsMap.set_cons]
    by_cases h : q = k
    · subst h
      rw [if_pos rfl]
      congr 1
      · simp
      · apply List.map_congr_left
        intro a ha
        have hne : ¬a = q := fun e => hq (e ▸ ha)
        simp [hne]
    · rw [if_neg h, ih hnd2]
      · congr 1
        simp [h]
      · rcases List.mem_cons.mp hk with h1 | h1
        · exact absurd h1.symm h
        · exact h1

theorem JsMap.set_append_of_get_none {α : Type} (m : JsMap α) (k : String) (v : α)
    (h : JsMap.get m k = none) : JsMap.set m k v = m ++ [(k, v)] := by
  induction m with
  | nil => rfl
  | cons kv rest ih =>
    by_cases hh : kv.1 = k
    · simp [JsMap.get, hh] at h
    · simp only [JsMap.get, hh, if_false] at h
      simp [JsMap.set, hh, ih h]

theorem groupAgg_append_same (l : List SummaryRow) (x : SummaryRow) :
    groupAgg (l ++ [x]) x.quarter =
      ⟨(groupAgg l x.quarter).total_stocks + 1,
       (groupAgg l x.quarter).total_returns + x.quarterly_returns,
       (groupAgg l x.quarter).total_weight + x.weight⟩ := by
  simp [groupAgg, List.filter_append]

theorem groupAgg_append_other (l : List SummaryRow) (x : SummaryRow) (q : String)
    (h : ¬q = x.quarter) :
    groupAgg (l ++ [x]) q = groupAgg l q := by
  have : (x.quarter == q) = false := by
    simp
    exact fun e => h e.symm
  simp [groupAgg, List.filter_append, this]

theorem groupAgg_of_not_mem (l : List SummaryRow) (q : String)
    (h : q ∉ l.map SummaryRow.quarter) :
    groupAgg l q = ⟨0, 0, 0⟩ := by
  have hf : l.filter (fun r => r.quarter == q) = [] := by
    rw [List.filter_eq_nil_iff]
    intro r hr
    simp only [beq_iff_eq]
    intro e
    exact h (List.mem_map.mpr ⟨r, hr, e⟩)
  simp [groupAgg, hf]

/-- The `quarterMap` built by the `forEach` loop is exactly the graph of
`groupAgg data` over the quarters in first-occurrence order. -/
theorem quarterMap_eq_graph (data : List SummaryRow) :
    quarterMapOf data =
      (dedupFirst (data.map SummaryRow.quarter)).map fun q => (q, groupAgg data q) := by
  induction data using List.reverseRecOn with
  | nil => rfl
  | append_singleton l x ih =>
    unfold quarterMapOf at ih ⊢
    rw [List.foldl_append, List.foldl_cons, List.foldl_nil, ih]
    unfold quarterFold
    rw [List.map_append, List.map_cons, List.map_nil, dedupFirst_append_singleton]
    by_cases hmem : x.quarter ∈ l.map SummaryRow.quarter
    · have hmem2 : x.quarter ∈ dedupFirst (l.map SummaryRow.quarter) :=
        (mem_dedupFirst _ _).mpr hmem
      rw [JsMap.get_graph]
      simp only [hmem, hmem2, if_true, Option.getD_some]
      rw [JsMap.set_graph_mem _ (nodup_dedupFirst _) _ _ _ hmem2]
      apply List.map_congr_left
      intro q hq
      by_cases hqx : q = x.quarter
      · subst hqx
        simp [groupAgg_append_same]
      · simp [hqx, groupAgg_append_other l x q hqx]
    · have hmem2 : x.quarter ∉ dedupFirst (l.map SummaryRow.quarter) :=
        fun hc => hmem ((mem_dedupFirst _ _).mp hc)
      rw [JsMap.get_graph]
      simp only [hmem, hmem2, if_false, Option.getD_none]
      rw [JsMap.set_append_of_get_none]
      · rw [List.map_append, List.map_cons, List.map_nil]
        congr 1
        · apply List.map_congr_left
          intro q hq
          have hqx : ¬q = x.quarter := by
            intro e
            exact hmem2 (e ▸ hq)
          rw [groupAgg_append_other l x q hqx]
        · rw [groupAgg_append_same, groupAgg_of_not_mem l x.quarter hmem]
      · rw [JsMap.get_graph]
        simp [hmem2]

/-- C5: `getQuartersSummary`'s aggregation equals the spec's description —
one summary per distinct quarter in first-occurrence order with the
group's count, its mean return and its total weight — and on the spec's
concrete three-row example the producer yields exactly the two stated
summaries. -/
theorem spec_C5 :
    (∀ data : List SummaryRow, computeQuarterSummaries data = summariesSpec data) ∧
    quartersProducer (Except.ok (some
        [⟨"Q1", 0.5, 10⟩, ⟨"Q1", 0.3, 20⟩, ⟨"Q2", 1, 5⟩]) :
        Except Unit (Option (List SummaryRow))) =
      Except.ok [⟨"Q1", 2, 15, 0.8⟩, ⟨"Q2", 1, 5, 1⟩] := by
  constructor
  · intro data
    unfold computeQuarterSummaries summariesSpec
    rw [quarterMap_eq_graph, List.map_map]
    rfl
  · have e1 : quarterFold [] ⟨"Q1", 0.5, 10⟩ = [("Q1", ⟨1, 10, 0.5⟩)] := by
      simp [quarterFold, JsMap.get, JsMap.set]
    have e2 : quarterFold [("Q1", ⟨1, 10, 0.5⟩)] ⟨"Q1", 0.3, 20⟩ =
        [("Q1", ⟨2, 30, 0.8⟩)] := by
      simp [quarterFold, JsMap.get, JsMap.set]
      norm_num
    have e3 : quarterFold [("Q1", ⟨2, 30, 0.8⟩)] ⟨"Q2", 1, 5⟩ =
        [("Q1", ⟨2, 30, 0.8⟩), ("Q2", ⟨1, 5, 1⟩)] := by
      simp [quarterFold, JsMap.get, JsMap.set]
    have e0 : quarterMapOf [⟨"Q1", 0.5, 10⟩, ⟨"Q1", 0.3, 20⟩, ⟨"Q2", 1, 5⟩] =
        [("Q1", ⟨2, 30, 0.8⟩), ("Q2", ⟨1, 5, 1⟩)] := by
      unfold quarterMapOf
      rw [List.foldl_cons, e1, List.foldl_cons, e2, List.foldl_cons, e3, List.foldl_nil]
    show Except.ok (computeQuarterSummaries
        [⟨"Q1", 0.5, 10⟩, ⟨"Q1", 0.3, 20⟩, ⟨"Q2", 1, 5⟩]) =
      Except.ok [⟨"Q1", 2, 15, 0.8⟩, ⟨"Q2", 1, 5, 1⟩]
    unfold computeQuarterSummaries
    rw [e0]
    simp
    norm_num

/-- C9: every entry of the `quarterMap` accumulator carries a row count of
at least one, so the division `total_returns / total_stocks` performed by
`getQuartersSummary` never has a zero divisor. -/
theorem spec_C9 (data : List SummaryRow) (pr : String × QuarterAgg)
    (h : pr ∈ quarterMapOf data) :
    1 ≤ pr.2.total_stocks ∧ ((pr.2.total_stocks : ℚ) ≠ 0) := by
  rw [quarterMap_eq_graph] at h
  rcases List.mem_map.mp h with ⟨q, hq, rfl⟩
  have hq2 : q ∈ data.map SummaryRow.quarter := (mem_dedupFirst _ _).mp hq
  rcases List.mem_map.mp hq2 with ⟨r, hr, rfl⟩
  have hmem : r ∈ data.filter (fun s => s.quarter == r.quarter) :=
    List.mem_filter.mpr ⟨hr, by simp⟩
  have hlen : 0 < (data.filter (fun s => s.quarter == r.quarter)).length :=
    List.length_pos_of_mem hmem
  constructor
  · simpa [groupAgg] using hlen
  · have : (groupAgg data r.quarter).total_stocks ≠ 0 := by
      simp only [groupAgg]
      omega
    exact_mod_cast Nat.cast_ne_zero.mpr this

/-- C9 witness: on a one-row list the single map entry has count 1 and a
nonzero rational divisor. -/
theorem spec_C9_witness :
    (("Q1", (⟨1, 2, 1⟩ : QuarterAgg)) ∈ quarterMapOf [⟨"Q1", 1, 2⟩]) ∧
    (1 ≤ (("Q1", (⟨1, 2, 1⟩ : QuarterAgg)).2.total_stocks) ∧
      ((("Q1", (⟨1, 2, 1⟩ : QuarterAgg)).2.total_stocks : ℚ) ≠ 0)) := by
  have e1 : quarterMapOf [⟨"Q1", 1, 2⟩] = [("Q1", ⟨1, 2, 1⟩)] := by
    unfold quarterMapOf
    rw [List.foldl_cons, List.foldl_nil]
    simp [quarterFold, JsMap.get, JsMap.set]
  have hmem : (("Q1", (⟨1, 2, 1⟩ : QuarterAgg)) ∈ quarterMapOf [⟨"Q1", 1, 2⟩]) := by
    rw [e1]
    simp
  exact ⟨hmem, spec_C9 [⟨"Q1", 1, 2⟩] ("Q1", ⟨1, 2, 1⟩) hmem⟩

end PortfolioService

